import Mathlib

/-!
Shallow embedding of `src/home-manager/modules/lazywarden/decrypt_lazywarden.py`.

Python `bytes` values are embedded as `List Nat` with every element `< 256`.
External library primitives (base64, Argon2, AES) are modelled: the AES block
permutation and the Argon2 core are abstracted as parameters (structures
carrying the library-guaranteed length contracts), since the Python code uses
them as black boxes and none of the verified properties depend on their
internals.
-/

namespace Lazywarden

/-- A list of naturals stands for a Python `bytes` value when every element
is an actual byte, i.e. below 256. -/
def ValidBytes (l : List Nat) : Prop := ∀ b ∈ l, b < 256

/-- Errors that `decrypt_blob` can signal, one constructor per distinct
Python exception the called libraries raise on the modelled paths:
`base64Error` for `binascii.Error` from `base64.urlsafe_b64decode`,
`saltTooShort` for the argon2 `HashingError` on a salt shorter than 8 bytes,
`invalidKeySize` for the `ValueError` raised by `algorithms.AES` on a key
not of length 16/24/32, and `invalidIVSize` for the `ValueError` raised by
`Cipher`/`modes.CFB` on an IV not of length 16.  The extra constructor
`malformedBlob` is the distinguished error named by the specification's
`BlobCodec.decode` contract; it is part of the error vocabulary so the
spec's claims about it can be stated, and the translated code never
produces it. -/
inductive DecErr where
  | base64Error
  | saltTooShort
  | invalidKeySize
  | invalidIVSize
  | malformedBlob
deriving DecidableEq

/-- The base64url alphabet character (ASCII code) for a 6-bit value,
as used by `base64.urlsafe_b64encode`. -/
def b64Char (v : Nat) : Nat :=
  if v < 26 then 65 + v
  else if v < 52 then 97 + (v - 26)
  else if v < 62 then 48 + (v - 52)
  else if v = 62 then 45
  else 95

/-- The 6-bit value of a base64url alphabet character (ASCII code).
`base64.urlsafe_b64decode` translates `-`/`_` to `+`/`/` and then decodes
with the standard alphabet, so both the url-safe pair 45/95 and the
standard pair 43/47 are accepted. -/
def b64Val (c : Nat) : Option Nat :=
  if 65 ≤ c ∧ c ≤ 90 then some (c - 65)
  else if 97 ≤ c ∧ c ≤ 122 then some (c - 97 + 26)
  else if 48 ≤ c ∧ c ≤ 57 then some (c - 48 + 52)
  else if c = 45 then some 62
  else if c = 95 then some 63
  else if c = 43 then some 62
  else if c = 47 then some 63
  else none

/-- Model of `base64.urlsafe_b64encode` on byte lists, producing the ASCII
codes of the encoded text (61 is the pad character `=`). -/
def b64encode : List Nat → List Nat
  | [] => []
  | [a] => [b64Char (a / 4), b64Char (a % 4 * 16), 61, 61]
  | [a, b] => [b64Char (a / 4), b64Char (a % 4 * 16 + b / 16), b64Char (b % 16 * 4), 61]
  | a :: b :: c :: rest =>
    b64Char (a / 4) :: b64Char (a % 4 * 16 + b / 16) ::
      b64Char (b % 16 * 4 + c / 64) :: b64Char (c % 64) :: b64encode rest

/-- Model of `base64.urlsafe_b64decode`, scoped to inputs over the base64
alphabet with canonical trailing padding; `none` stands for the
`binascii.Error` the library raises on other inputs.  (The library's
discarding of non-alphabet characters is outside this scope; no input
considered in this development contains such characters.) -/
def b64decode : List Nat → Option (List Nat)
  | [] => some []
  | c1 :: c2 :: c3 :: c4 :: rest =>
    match b64Val c1, b64Val c2 with
    | some v1, some v2 =>
      if c3 = 61 then
        if c4 = 61 ∧ rest = [] then some [v1 * 4 + v2 / 16] else none
      else
        match b64Val c3 with
        | some v3 =>
          if c4 = 61 then
            if rest = [] then some [v1 * 4 + v2 / 16, v2 % 16 * 16 + v3 / 4] else none
          else
            match b64Val c4 with
            | some v4 =>
              (b64decode rest).map
                (fun bs => (v1 * 4 + v2 / 16) :: (v2 % 16 * 16 + v3 / 4) :: (v3 % 4 * 64 + v4) :: bs)
            | none => none
        | none => none
    | _, _ => none
  | _ => none

/-- Abstraction of the AES block cipher used through
`cryptography.hazmat.primitives.ciphers.algorithms.AES`: an encryption
function from a key and a 16-byte block to a 16-byte block.  CFB mode uses
only the forward (encryption) direction, so no inverse is required.  The two
fields after `encrypt` record the library's contract that an AES block
output is exactly 16 genuine bytes. -/
structure BlockCipher where
  encrypt : List Nat → List Nat → List Nat
  length_encrypt : ∀ key block, (encrypt key block).length = 16
  lt_encrypt : ∀ key block, ∀ b ∈ encrypt key block, b < 256

/-- Abstraction of the Argon2 core accessed through
`argon2.low_level.hash_secret_raw`: a function of
(secret, salt, time_cost, memory_cost, parallelism, hash_len, type)
whose output length is exactly `hash_len` (the library contract). -/
structure Argon2Core where
  run : List Nat → List Nat → Nat → Nat → Nat → Nat → Nat → List Nat
  length_run : ∀ secret salt t m par hashLen ty,
    (run secret salt t m par hashLen ty).length = hashLen

/-- Pointwise XOR of two byte lists, truncated to the shorter one —
how a keystream block is combined with a data block in CFB mode. -/
def xorBytes (a b : List Nat) : List Nat := List.zipWith (fun x y => x ^^^ y) a b

/-- One pass of CFB-128 encryption (the mode `modes.CFB` denotes):
each 16-byte keystream block is the block encryption of the previous
ciphertext block (initially the IV), XORed into the plaintext.  The first
argument is fuel bounding the recursion; callers pass the input length,
which always suffices because each step consumes at least one byte. -/
def cfbEncLoop (E : BlockCipher) (key : List Nat) :
    Nat → List Nat → List Nat → List Nat
  | 0, _, _ => []
  | _ + 1, _, [] => []
  | fuel + 1, feedback, p@(_ :: _) =>
    let c := xorBytes (p.take 16) (E.encrypt key feedback)
    c ++ cfbEncLoop E key fuel c (p.drop 16)

/-- CFB-128 encryption of a plaintext under a key and IV. -/
def cfbEncrypt (E : BlockCipher) (key iv p : List Nat) : List Nat :=
  cfbEncLoop E key p.length iv p

/-- One pass of CFB-128 decryption: each keystream block is the block
encryption of the previous ciphertext block (initially the IV), XORed into
the ciphertext.  Fuel as in `cfbEncLoop`. -/
def cfbDecLoop (E : BlockCipher) (key : List Nat) :
    Nat → List Nat → List Nat → List Nat
  | 0, _, _ => []
  | _ + 1, _, [] => []
  | fuel + 1, feedback, c@(_ :: _) =>
    let p := xorBytes (c.take 16) (E.encrypt key feedback)
    p ++ cfbDecLoop E key fuel (c.take 16) (c.drop 16)

/-- CFB-128 decryption of a ciphertext under a key and IV. -/
def cfbDecrypt (E : BlockCipher) (key iv c : List Nat) : List Nat :=
  cfbDecLoop E key c.length iv c

/-- The state of a `cryptography` decryption context for AES-CFB, as
returned by `cipher.decryptor()`: the cipher, the key, and the current
feedback register (initially the IV). -/
structure DecryptorCtx where
  cipher : BlockCipher
  key : List Nat
  feedback : List Nat

/-- Model of `Cipher(algorithms.AES(key), modes.CFB(iv)).decryptor()`:
a fresh decryption context whose feedback register holds the IV. -/
def cipherDecryptor (E : BlockCipher) (key iv : List Nat) : DecryptorCtx :=
  ⟨E, key, iv⟩

/-- Model of `decryptor.update(ct)` for CFB: a stream mode returns all
`ct.length` decrypted bytes at once; the context advances its feedback
register to the last 16 bytes of the IV-extended ciphertext stream. -/
def DecryptorCtx.update (d : DecryptorCtx) (ct : List Nat) : List Nat × DecryptorCtx :=
  (cfbDecrypt d.cipher d.key d.feedback ct,
   ⟨d.cipher, d.key, (d.feedback ++ ct).drop ((d.feedback ++ ct).length - 16)⟩)

/-- Model of `decryptor.finalize()` for CFB: a stream mode buffers nothing,
so finalize always returns the empty byte string. -/
def DecryptorCtx.finalize (_ : DecryptorCtx) : List Nat := []

/-- The exact expression on line 47 of the source,
`cipher.decryptor().update(ct) + cipher.decryptor().finalize()`:
two distinct decryptor objects are created, the second used only for
`finalize`. -/
def twoDecryptorRun (E : BlockCipher) (key iv ct : List Nat) : List Nat :=
  ((cipherDecryptor E key iv).update ct).1 ++ (cipherDecryptor E key iv).finalize

/-- The standard single-decryptor formulation the specification describes:
one decryptor is created, updated with the whole ciphertext, and finalized. -/
def singleDecryptorRun (E : BlockCipher) (key iv ct : List Nat) : List Nat :=
  let d := cipherDecryptor E key iv
  let r := d.update ct
  r.1 ++ r.2.finalize

/-- Model of `argon2.low_level.hash_secret_raw(secret, salt, time_cost,
memory_cost, parallelism, hash_len, type)`: the library rejects salts
shorter than 8 bytes (`ARGON2_SALT_TOO_SHORT`) and otherwise returns the
`hash_len`-byte output of the Argon2 core. -/
def hash_secret_raw (A : Argon2Core) (secret salt : List Nat)
    (timeCost memoryCost parallelism hashLen ty : Nat) : Except DecErr (List Nat) :=
  if salt.length < 8 then .error .saltTooShort
  else .ok (A.run secret salt timeCost memoryCost parallelism hashLen ty)

/-- Translation of `derive_key` (lines 25-35): Argon2 with `time_cost=3`,
`memory_cost=65536`, `parallelism=1`, `hash_len=32`, `type=Type.I`
(the enum value of `Type.I` is 1). -/
def derive_key (A : Argon2Core) (pw salt : List Nat) : Except DecErr (List Nat) :=
  hash_secret_raw A pw salt 3 65536 1 32 1

/-- Translation of `decrypt_blob` (lines 38-47): base64url-decode the blob,
split off the 16-byte salt and 16-byte IV, derive the key, and CFB-decrypt
the remainder.  The key- and IV-size checks are the ones
`Cipher(algorithms.AES(key), modes.CFB(iv))` performs, in Python's
argument-evaluation order (key size first, IV size second); errors stand
for the exceptions the corresponding library calls raise. -/
def decrypt_blob (E : BlockCipher) (A : Argon2Core)
    (blob enc_pwd : List Nat) : Except DecErr (List Nat) :=
  match b64decode blob with
  | none => .error .base64Error
  | some data =>
    match derive_key A enc_pwd (data.take 16) with
    | .error e => .error e
    | .ok key =>
      if key.length = 16 ∨ key.length = 24 ∨ key.length = 32 then
        if ((data.drop 16).take 16).length = 16 then
          .ok (twoDecryptorRun E key ((data.drop 16).take 16) (data.drop 32))
        else .error .invalidIVSize
      else .error .invalidKeySize

/-- Translation of the `compress_names` dictionary and its
`.get(compress_type, f"unknown ({compress_type})")` lookup (lines 69-77). -/
def compress_name (t : Nat) : String :=
  if t = 0 then "stored (no compression)"
  else if t = 8 then "deflate"
  else if t = 12 then "bzip2"
  else if t = 14 then "lzma"
  else if t = 93 then "zstandard"
  else if t = 99 then "AES encrypted"
  else "unknown (" ++ toString t ++ ")"

/-- Whether a file name matches the glob pattern `*.json` (line 86):
it ends in `.json`.  `pathlib.Path.glob` — unlike the `glob` module —
does not special-case names starting with a dot, so hidden files are
matched too. -/
def isJsonName (s : String) : Bool :=
  ".json".toList.isSuffixOf s.toList

/-- Whether a file name matches the glob pattern `attachments_*.zip`
(line 116). -/
def isAttachName (s : String) : Bool :=
  ("attachments_".toList.isPrefixOf s.toList) && (".zip".toList.isSuffixOf s.toList)

/-- The payload selection of lines 86-90: the first element, in directory
enumeration order, of the `*.json` matches of the extracted directory's
listing (`list(output_dir.glob("*.json"))[0]`, guarded by the emptiness
check). -/
def selectPayload (listing : List String) : Option String :=
  (listing.filter isJsonName).head?

/-- The attachments-archive selection of lines 116-119: the first
`attachments_*.zip` match of the directory listing. -/
def selectAttach (listing : List String) : Option String :=
  (listing.filter isAttachName).head?

/-- Byte-code lexicographic comparison of names, used only to state the
specification's "first in sorted order" tie-break policy. -/
def lexLe : List Nat → List Nat → Bool
  | [], _ => true
  | _ :: _, [] => false
  | x :: xs, y :: ys => if x < y then true else if x = y then lexLe xs ys else false

/-- Lexicographic comparison of file names via their character codes. -/
def nameLe (a b : String) : Bool :=
  lexLe (a.toList.map Char.toNat) (b.toList.map Char.toNat)

/-- Insert a name into a lexicographically sorted list of names. -/
def insertName (x : String) : List String → List String
  | [] => [x]
  | y :: ys => if nameLe x y then x :: y :: ys else y :: insertName x ys

/-- Insertion sort of names in lexicographic order. -/
def sortNames : List String → List String
  | [] => []
  | x :: xs => insertName x (sortNames xs)

/-- Modelled from the spec: the payload selection policy §4.4 step 2 and
§8 describe — "first in sorted order" among the `*.json` candidates.
Stated only to be compared against `selectPayload`, the policy the code
implements. -/
def sortedSelect (listing : List String) : Option String :=
  (sortNames (listing.filter isJsonName)).head?

/-- The exceptions `pyzipper` extraction can raise: a wrong-password
`RuntimeError` ("Bad password ...") or any other failure
(corrupt archive, I/O error). -/
inductive ZipErr where
  | badPassword
  | otherError
deriving DecidableEq

/-- Observable side effects of one `main` run, in order of occurrence:
outer-archive extraction, writing the decrypted output file, deleting the
encrypted payload file (`json_file.unlink()`), extracting the attachments
archive, deleting the attachments archive file
(`attachments_zip.unlink()`), and reporting a non-fatal attachments
extraction failure. -/
inductive Ev where
  | extractOuter
  | wroteOutput
  | deletePayload
  | extractAttach
  | deleteAttach
  | reportAttachFailure
deriving DecidableEq

/-- The external world one `main` run interacts with: whether the archive
path is a file, the outcome of outer extraction, the extracted directory's
listing in the (arbitrary, filesystem-dependent) order `Path.glob`
enumerates it, the interactively supplied encryption password, the bytes
of each extracted file, whether `json.loads` succeeds on given bytes,
whether writing the decrypted output file succeeds, the interactively
supplied attachments password (empty = skip), and the outcome of
attachments extraction. -/
structure Env where
  zipExists : Bool
  outerExtract : Except ZipErr Unit
  dirListing : List String
  encPwd : List Nat
  readFile : String → List Nat
  parses : List Nat → Bool
  writeOk : Bool
  attachPwd : List Nat
  attachExtract : Except ZipErr Unit

/-- Translation of `main` (lines 50-152) as a function from the external
world to the emitted effect trace and the final exit status
(`true` = exit code 0, `false` = a `sys.exit(message)` abort).
Every `except` clause of the source is mirrored: any outer-extraction
exception is fatal (lines 82-83), any exception in the
decrypt/parse/write/unlink block is fatal (lines 112-113), and any
attachments-extraction exception is caught, reported and non-fatal
(lines 140-146). -/
def main (E : BlockCipher) (A : Argon2Core) (env : Env) : List Ev × Bool :=
  if env.zipExists = false then ([], false)
  else
    match env.outerExtract with
    | .error _ => ([], false)
    | .ok _ =>
      match selectPayload env.dirListing with
      | none => ([Ev.extractOuter], false)
      | some jf =>
        match decrypt_blob E A (env.readFile jf) env.encPwd with
        | .error _ => ([Ev.extractOuter], false)
        | .ok pt =>
          if env.parses pt = false then ([Ev.extractOuter], false)
          else if env.writeOk = false then ([Ev.extractOuter], false)
          else
            match selectAttach env.dirListing with
            | none => ([Ev.extractOuter, Ev.wroteOutput, Ev.deletePayload], true)
            | some _ =>
              if env.attachPwd.isEmpty then
                ([Ev.extractOuter, Ev.wroteOutput, Ev.deletePayload], true)
              else
                match env.attachExtract with
                | .ok _ =>
                  ([Ev.extractOuter, Ev.wroteOutput, Ev.deletePayload,
                    Ev.extractAttach, Ev.deleteAttach], true)
                | .error _ =>
                  ([Ev.extractOuter, Ev.wroteOutput, Ev.deletePayload,
                    Ev.reportAttachFailure], true)

/-- A concrete block cipher instance used to exercise the theorems on
explicit inputs: XOR of the key into the block, padded to 16 bytes. -/
def xorCipher : BlockCipher where
  encrypt := fun key block =>
    (List.range 16).map (fun i => (key.getD i 0 ^^^ block.getD i 0) % 256)
  length_encrypt := by intro key block; simp
  lt_encrypt := by
    intro key block b hb
    simp only [List.mem_map, List.mem_range] at hb
    obtain ⟨i, _, rfl⟩ := hb
    exact Nat.mod_lt _ (by norm_num)

/-- A concrete Argon2 core used to exercise the theorems on explicit
inputs: it returns `hash_len` zero bytes. -/
def zeroCore : Argon2Core where
  run := fun _ _ _ _ _ hashLen _ => List.replicate hashLen 0
  length_run := by intro s sa t m par hashLen ty; simp

/-- A concrete external world for exercising the pipeline theorems: the
archive exists, outer extraction succeeds, the listing holds one payload
and one attachments archive, the payload decrypts (it is the encoding of
32 zero bytes: 16-byte salt, 16-byte IV, empty ciphertext), parsing and
writing succeed, and the attachments password is empty. -/
def env0 : Env where
  zipExists := true
  outerExtract := .ok ()
  dirListing := ["bw-backup.json", "attachments_1.zip"]
  encPwd := []
  readFile := fun _ => b64encode (List.replicate 32 0)
  parses := fun _ => true
  writeOk := true
  attachPwd := []
  attachExtract := .ok ()

/-- Decoding inverts encoding on each 6-bit value. -/
theorem b64Val_b64Char : ∀ v, v < 64 → b64Val (b64Char v) = some v := by decide

/-- No alphabet character is the pad character `=`. -/
theorem b64Char_ne_pad : ∀ v, v < 64 → b64Char v ≠ 61 := by decide

/-- The base64url decoder inverts the encoder on genuine byte lists. -/
theorem b64decode_encode : ∀ bs : List Nat, ValidBytes bs → b64decode (b64encode bs) = some bs := by
  intro bs
  induction bs using b64encode.induct with
  | case1 => intro _; rfl
  | case2 a =>
    intro h
    have ha : a < 256 := h a (by simp)
    have h1 := b64Val_b64Char (a / 4) (by omega)
    have h2 := b64Val_b64Char (a % 4 * 16) (by omega)
    simp [b64encode, b64decode, h1, h2]
    omega
  | case3 a b =>
    intro h
    have ha : a < 256 := h a (by simp)
    have hb : b < 256 := h b (by simp)
    have h1 := b64Val_b64Char (a / 4) (by omega)
    have h2 := b64Val_b64Char (a % 4 * 16 + b / 16) (by omega)
    have h3 := b64Val_b64Char (b % 16 * 4) (by omega)
    have hne := b64Char_ne_pad (b % 16 * 4) (by omega)
    simp [b64encode, b64decode, h1, h2, h3, hne]
    constructor <;> omega
  | case4 a b c rest ih =>
    intro h
    have ha : a < 256 := h a (by simp)
    have hb : b < 256 := h b (by simp)
    have hc : c < 256 := h c (by simp)
    have hrest : ValidBytes rest := fun x hx => h x (by simp [hx])
    have h1 := b64Val_b64Char (a / 4) (by omega)
    have h2 := b64Val_b64Char (a % 4 * 16 + b / 16) (by omega)
    have h3 := b64Val_b64Char (b % 16 * 4 + c / 64) (by omega)
    have h4 := b64Val_b64Char (c % 64) (by omega)
    have hne3 := b64Char_ne_pad (b % 16 * 4 + c / 64) (by omega)
    have hne4 := b64Char_ne_pad (c % 64) (by omega)
    simp [b64encode, b64decode, h1, h2, h3, h4, hne3, hne4, ih hrest]
    refine ⟨by omega, by omega, by omega⟩

/-- XORing with the same keystream twice gives back the data, provided the
keystream covers it. -/
theorem xorBytes_cancel : ∀ p ks : List Nat, p.length ≤ ks.length →
    xorBytes (xorBytes p ks) ks = p := by
  intro p
  induction p with
  | nil => intro ks _; rfl
  | cons x xs ih =>
    intro ks hl
    cases ks with
    | nil => simp at hl
    | cons k ks =>
      simp only [List.length_cons] at hl
      simp only [xorBytes, List.zipWith_cons_cons]
      exact congrArg₂ (· :: ·) (Nat.xor_cancel_right k x) (ih ks (by omega))

/-- Length of a pointwise XOR. -/
theorem length_xorBytes (a b : List Nat) :
    (xorBytes a b).length = min a.length b.length := by
  simp [xorBytes]

/-- A pointwise XOR of genuine bytes is genuine bytes. -/
theorem validBytes_xorBytes : ∀ a b : List Nat, ValidBytes a → ValidBytes b →
    ValidBytes (xorBytes a b) := by
  intro a
  induction a with
  | nil => intro b _ _ x hx; simp [xorBytes] at hx
  | cons y ys ih =>
    intro b ha hb
    cases b with
    | nil => intro x hx; simp [xorBytes] at hx
    | cons z zs =>
      intro x hx
      simp only [xorBytes, List.zipWith_cons_cons, List.mem_cons] at hx
      rcases hx with rfl | hx
      · have h8 : (256 : Nat) = 2 ^ 8 := by norm_num
        rw [h8]
        exact Nat.xor_lt_two_pow (h8 ▸ ha y (by simp)) (h8 ▸ hb z (by simp))
      · exact ih zs (fun u hu => ha u (by simp [hu])) (fun u hu => hb u (by simp [hu])) x hx

/-- CFB decryption of the empty ciphertext is empty at any fuel. -/
theorem cfbDecLoop_nil (E : BlockCipher) (key : List Nat) :
    ∀ fuel fb, cfbDecLoop E key fuel fb [] = [] := by
  intro fuel fb; cases fuel <;> rfl

/-- CFB encryption of the empty plaintext is empty at any fuel. -/
theorem cfbEncLoop_nil (E : BlockCipher) (key : List Nat) :
    ∀ fuel fb, cfbEncLoop E key fuel fb [] = [] := by
  intro fuel fb; cases fuel <;> rfl

/-- CFB encryption preserves length whenever the fuel covers the input. -/
theorem length_cfbEncLoop (E : BlockCipher) (key : List Nat) :
    ∀ fuel fb p, p.length ≤ fuel → (cfbEncLoop E key fuel fb p).length = p.length := by
  intro fuel
  induction fuel with
  | zero =>
    intro fb p hp
    have : p = [] := List.length_eq_zero.mp (by omega)
    subst this; rfl
  | succ n ih =>
    intro fb p hp
    cases p with
    | nil => rfl
    | cons x xs =>
      have hp' : xs.length + 1 ≤ n + 1 := by simpa using hp
      simp only [cfbEncLoop, List.length_append, length_xorBytes,
        E.length_encrypt, List.length_take, List.length_cons]
      rw [ih _ ((x :: xs).drop 16) (by simp; omega)]
      simp
      omega

/-- CFB encryption produces genuine bytes from genuine bytes. -/
theorem validBytes_cfbEncLoop (E : BlockCipher) (key : List Nat) :
    ∀ fuel fb p, ValidBytes p → ValidBytes (cfbEncLoop E key fuel fb p) := by
  intro fuel
  induction fuel with
  | zero => intro fb p _ x hx; simp [cfbEncLoop] at hx
  | succ n ih =>
    intro fb p hp
    cases p with
    | nil => intro x hx; simp [cfbEncLoop] at hx
    | cons y ys =>
      intro x hx
      simp only [cfbEncLoop, List.mem_append] at hx
      rcases hx with hx | hx
      · exact validBytes_xorBytes _ _
          (fun u hu => hp u (List.take_subset _ _ hu)) (E.lt_encrypt key fb) x hx
      · exact ih _ _ (fun u hu => hp u (List.drop_subset _ _ hu)) x hx

/-- CFB decryption inverts CFB encryption whenever both fuels cover the
plaintext. -/
theorem cfbDecLoop_cfbEncLoop (E : BlockCipher) (key : List Nat) :
    ∀ fuelE fuelD fb p, p.length ≤ fuelE → p.length ≤ fuelD →
      cfbDecLoop E key fuelD fb (cfbEncLoop E key fuelE fb p) = p := by
  intro fuelE
  induction fuelE with
  | zero =>
    intro fuelD fb p hpE _
    have : p = [] := List.length_eq_zero.mp (by omega)
    subst this
    rw [cfbEncLoop_nil, cfbDecLoop_nil]
  | succ e ih =>
    intro fuelD fb p hpE hpD
    cases p with
    | nil => rw [cfbEncLoop_nil, cfbDecLoop_nil]
    | cons x xs =>
      cases fuelD with
      | zero => simp at hpD
      | succ d =>
        have hks : (E.encrypt key fb).length = 16 := E.length_encrypt key fb
        set p := x :: xs with hpdef
        set c := xorBytes (p.take 16) (E.encrypt key fb) with hcdef
        have hclen : c.length = min p.length 16 := by
          rw [hcdef, length_xorBytes, hks, List.length_take]
          omega
        have henc : cfbEncLoop E key (e + 1) fb p =
            c ++ cfbEncLoop E key e c (p.drop 16) := by
          rw [hpdef, cfbEncLoop]
        by_cases h16 : p.length ≤ 16
        · have hdrop : p.drop 16 = [] := List.drop_eq_nil_of_le (by omega)
          have hcl : c.length = p.length := by omega
          have : cfbEncLoop E key (e + 1) fb p = c := by
            rw [henc, hdrop, cfbEncLoop_nil, List.append_nil]
          rw [this]
          have hcne : c ≠ [] := by
            intro hc
            rw [hc] at hcl
            simp [hpdef] at hcl
          obtain ⟨ch, ctl, hctl⟩ := List.exists_cons_of_ne_nil hcne
          rw [hctl, cfbDecLoop, ← hctl]
          have htc : c.take 16 = c := List.take_of_length_le (by omega)
          have hdc : c.drop 16 = [] := List.drop_eq_nil_of_le (by omega)
          rw [htc, hdc, cfbDecLoop_nil, List.append_nil, hcdef,
            List.take_of_length_le (by omega), xorBytes_cancel _ _ (by omega)]
        · have hcl16 : c.length = 16 := by omega
          have hdlen : (p.drop 16).length ≤ e := by simp [hpdef] at hpE ⊢; omega
          have hdlenD : (p.drop 16).length ≤ d := by simp [hpdef] at hpD ⊢; omega
          have hcne : c ≠ [] := by
            intro hc
            rw [hc] at hcl16
            simp at hcl16
          obtain ⟨ch, ctl, hctl⟩ := List.exists_cons_of_ne_nil hcne
          have hcons : ∃ z zs, c ++ cfbEncLoop E key e c (p.drop 16) = z :: zs := by
            exact ⟨ch, ctl ++ cfbEncLoop E key e c (p.drop 16), by rw [hctl]; rfl⟩
          obtain ⟨z, zs, hzs⟩ := hcons
          rw [henc, hzs, cfbDecLoop, ← hzs,
            List.take_left' hcl16, List.drop_left' hcl16, hcdef,
            xorBytes_cancel _ _ (by rw [hks, List.length_take]; omega),
            ← hcdef, ih d c (p.drop 16) hdlen hdlenD, List.take_append_drop]

/-- CFB decryption inverts CFB encryption. -/
theorem cfbDecrypt_cfbEncrypt (E : BlockCipher) (key iv p : List Nat) :
    cfbDecrypt E key iv (cfbEncrypt E key iv p) = p := by
  unfold cfbDecrypt cfbEncrypt
  rw [length_cfbEncLoop E key p.length iv p (le_refl _)]
  exact cfbDecLoop_cfbEncLoop E key p.length p.length iv p (le_refl _) (le_refl _)

/-- A replicated byte below 256 forms a genuine byte list. -/
theorem validBytes_replicate (n x : Nat) (h : x < 256) :
    ValidBytes (List.replicate n x) :=
  fun b hb => List.eq_of_mem_replicate hb ▸ h

/-- Line 47 of the source builds its result from two decryptor objects;
the combined expression equals plain CFB decryption. -/
theorem twoDecryptorRun_eq (E : BlockCipher) (key iv ct : List Nat) :
    twoDecryptorRun E key iv ct = cfbDecrypt E key iv ct := by
  simp [twoDecryptorRun, cipherDecryptor, DecryptorCtx.update, DecryptorCtx.finalize]

/-- Key derivation succeeds on salts of at least 8 bytes. -/
theorem derive_key_ok (A : Argon2Core) (pw salt : List Nat) (h : ¬ salt.length < 8) :
    derive_key A pw salt = .ok (A.run pw salt 3 65536 1 32 1) := by
  unfold derive_key hash_secret_raw
  rw [if_neg h]

/-- Key derivation rejects salts shorter than 8 bytes. -/
theorem derive_key_short (A : Argon2Core) (pw salt : List Nat) (h : salt.length < 8) :
    derive_key A pw salt = .error .saltTooShort := by
  unfold derive_key hash_secret_raw
  rw [if_pos h]

/-- Unfolding of `decrypt_blob` once base64 decoding and key derivation
have succeeded. -/
theorem decrypt_blob_key_ok (E : BlockCipher) (A : Argon2Core)
    (blob pwd data key : List Nat) (h : b64decode blob = some data)
    (hk : derive_key A pwd (data.take 16) = .ok key) :
    decrypt_blob E A blob pwd =
      (if key.length = 16 ∨ key.length = 24 ∨ key.length = 32 then
        if ((data.drop 16).take 16).length = 16 then
          .ok (twoDecryptorRun E key ((data.drop 16).take 16) (data.drop 32))
        else .error .invalidIVSize
      else .error .invalidKeySize) := by
  unfold decrypt_blob
  simp only [h, hk]

/-- Unfolding of `decrypt_blob` when key derivation fails. -/
theorem decrypt_blob_key_err (E : BlockCipher) (A : Argon2Core)
    (blob pwd data : List Nat) (e : DecErr) (h : b64decode blob = some data)
    (hk : derive_key A pwd (data.take 16) = .error e) :
    decrypt_blob E A blob pwd = .error e := by
  unfold decrypt_blob
  simp only [h, hk]

/-- C1: for every 16-byte salt, 16-byte IV, plaintext and passphrase,
decoding the blob built as
`base64url(salt || iv || AES-CFB-encrypt(key=derive(passphrase, salt), iv, plaintext))`
with `decrypt_blob` and the same passphrase returns exactly the original
plaintext. -/
theorem c1_decrypt_blob_roundtrip (E : BlockCipher) (A : Argon2Core)
    (salt iv pt pass : List Nat)
    (hs : salt.length = 16) (hi : iv.length = 16)
    (hsv : ValidBytes salt) (hiv : ValidBytes iv) (hpv : ValidBytes pt) :
    decrypt_blob E A
      (b64encode (salt ++ iv ++ cfbEncrypt E (A.run pass salt 3 65536 1 32 1) iv pt))
      pass = .ok pt := by
  have hkey : (A.run pass salt 3 65536 1 32 1).length = 32 :=
    A.length_run pass salt 3 65536 1 32 1
  have hctv : ValidBytes (cfbEncrypt E (A.run pass salt 3 65536 1 32 1) iv pt) :=
    validBytes_cfbEncLoop E _ _ _ _ hpv
  have hval : ValidBytes
      (salt ++ iv ++ cfbEncrypt E (A.run pass salt 3 65536 1 32 1) iv pt) := by
    intro b hb
    simp only [List.append_assoc, List.mem_append] at hb
    rcases hb with hb | hb | hb
    · exact hsv b hb
    · exact hiv b hb
    · exact hctv b hb
  have hdec := b64decode_encode _ hval
  have htake : (salt ++ iv ++ cfbEncrypt E (A.run pass salt 3 65536 1 32 1) iv pt).take 16
      = salt := by
    rw [List.append_assoc]
    exact List.take_left' hs
  have hdk : derive_key A pass
      ((salt ++ iv ++ cfbEncrypt E (A.run pass salt 3 65536 1 32 1) iv pt).take 16) =
      .ok (A.run pass salt 3 65536 1 32 1) := by
    rw [htake]
    exact derive_key_ok A pass salt (by omega)
  rw [decrypt_blob_key_ok E A _ pass _ _ hdec hdk]
  have hdrop : (salt ++ iv ++ cfbEncrypt E (A.run pass salt 3 65536 1 32 1) iv pt).drop 16
      = iv ++ cfbEncrypt E (A.run pass salt 3 65536 1 32 1) iv pt := by
    rw [List.append_assoc]
    exact List.drop_left' hs
  have hivtake : ((salt ++ iv ++ cfbEncrypt E (A.run pass salt 3 65536 1 32 1) iv pt).drop 16).take 16
      = iv := by
    rw [hdrop]
    exact List.take_left' hi
  have hct : (salt ++ iv ++ cfbEncrypt E (A.run pass salt 3 65536 1 32 1) iv pt).drop 32
      = cfbEncrypt E (A.run pass salt 3 65536 1 32 1) iv pt :=
    List.drop_left' (by rw [List.length_append, hs, hi])
  rw [hivtake, hct]
  rw [if_pos (Or.inr (Or.inr hkey)), if_pos hi]
  rw [twoDecryptorRun_eq, cfbDecrypt_cfbEncrypt]

/-- C1 witness: the round trip evaluated at concrete inputs. -/
theorem c1_decrypt_blob_roundtrip_witness :
    decrypt_blob xorCipher zeroCore
      (b64encode (List.replicate 16 0 ++ List.replicate 16 1 ++
        cfbEncrypt xorCipher (zeroCore.run [7] (List.replicate 16 0) 3 65536 1 32 1)
          (List.replicate 16 1) [10, 20, 30]))
      [7] = .ok [10, 20, 30] :=
  c1_decrypt_blob_roundtrip xorCipher zeroCore (List.replicate 16 0)
    (List.replicate 16 1) [10, 20, 30] [7] (by simp) (by simp)
    (validBytes_replicate 16 0 (by omega)) (validBytes_replicate 16 1 (by omega))
    (by
      intro b hb
      simp only [List.mem_cons, List.not_mem_nil, or_false] at hb
      rcases hb with rfl | rfl | rfl <;> omega)

/-- C5: for every blob whose base64url decoding yields at least 32 bytes
and every passphrase (including an incorrect one), `decrypt_blob` returns
some byte sequence without raising an exception. -/
theorem c5_wrong_password_silent (E : BlockCipher) (A : Argon2Core)
    (blob pwd data : List Nat) (hdec : b64decode blob = some data)
    (hlen : 32 ≤ data.length) :
    ∃ pt, decrypt_blob E A blob pwd = .ok pt := by
  have hsalt : ¬ (data.take 16).length < 8 := by
    simp only [List.length_take]
    omega
  have hkey := A.length_run pwd (data.take 16) 3 65536 1 32 1
  rw [decrypt_blob_key_ok E A blob pwd data _ hdec (derive_key_ok A pwd _ hsalt)]
  have hiv : ((data.drop 16).take 16).length = 16 := by
    simp only [List.length_take, List.length_drop]
    omega
  rw [if_pos (Or.inr (Or.inr hkey)), if_pos hiv]
  exact ⟨_, rfl⟩

/-- C5 witness: a well-formed blob decrypted under an arbitrary passphrase. -/
theorem c5_wrong_password_silent_witness :
    ∃ pt, decrypt_blob xorCipher zeroCore (b64encode (List.replicate 48 5)) [9] =
      .ok pt :=
  c5_wrong_password_silent xorCipher zeroCore _ [9] (List.replicate 48 5)
    (b64decode_encode _ (validBytes_replicate 48 5 (by omega))) (by decide)

/-- C6: `derive_key` is a pure deterministic function of
(passphrase, salt), its successful output is always exactly 32 bytes, and
its fixed cost parameters are iteration count 3, memory cost 65536 and
parallelism 1 (with hash length 32 and Argon2 type I). -/
theorem c6_derive_key_parameters (A : Argon2Core) (pw pw₂ salt salt₂ : List Nat) :
    derive_key A pw salt = hash_secret_raw A pw salt 3 65536 1 32 1 ∧
    (pw = pw₂ → salt = salt₂ → derive_key A pw salt = derive_key A pw₂ salt₂) ∧
    (∀ k, derive_key A pw salt = .ok k → k.length = 32) := by
  refine ⟨rfl, ?_, ?_⟩
  · intro h1 h2
    rw [h1, h2]
  · intro k hk
    unfold derive_key hash_secret_raw at hk
    by_cases h : salt.length < 8
    · rw [if_pos h] at hk
      exact absurd hk (by simp)
    · rw [if_neg h] at hk
      have hrun : A.run pw salt 3 65536 1 32 1 = k := by
        injection hk
      rw [← hrun]
      exact A.length_run pw salt 3 65536 1 32 1

/-- C6 witness: the determinism and output length exercised at concrete
inputs. -/
theorem c6_derive_key_parameters_witness :
    derive_key zeroCore [1] (List.replicate 8 2) =
      derive_key zeroCore [1] (List.replicate 8 2) ∧
    (List.replicate 32 (0 : Nat)).length = 32 :=
  ⟨(c6_derive_key_parameters zeroCore [1] [1] (List.replicate 8 2)
      (List.replicate 8 2)).2.1 rfl rfl,
   (c6_derive_key_parameters zeroCore [1] [1] (List.replicate 8 2)
      (List.replicate 8 2)).2.2 (List.replicate 32 0) rfl⟩

/-- C10: `decrypt_blob`'s line-47 expression builds its result from two
distinct decryptor objects — one for `update`, a fresh one for
`finalize`; since `finalize` on a fresh CFB decryptor that has processed
no data returns the empty byte string, that expression equals the standard
single-decryptor CFB decryption of the ciphertext. -/
theorem c10_two_decryptors_equivalent (E : BlockCipher) (key iv ct : List Nat) :
    twoDecryptorRun E key iv ct = singleDecryptorRun E key iv ct ∧
    (cipherDecryptor E key iv).finalize = [] ∧
    singleDecryptorRun E key iv ct = cfbDecrypt E key iv ct := by
  refine ⟨?_, rfl, ?_⟩ <;>
    simp [twoDecryptorRun, singleDecryptorRun, cipherDecryptor,
      DecryptorCtx.update, DecryptorCtx.finalize]

/-- C2 counterexample: a base64-valid blob decoding to 20 < 32 bytes makes
`decrypt_blob` fail with the invalid-IV-size error the cipher construction
raises, not with the distinguished `MalformedBlob` error the claim names. -/
theorem c2_counterexample_not_malformedBlob :
    b64decode (b64encode (List.replicate 20 0)) = some (List.replicate 20 0) ∧
    (List.replicate (20 : Nat) 0).length < 32 ∧
    decrypt_blob xorCipher zeroCore (b64encode (List.replicate 20 0)) [] =
      .error DecErr.invalidIVSize ∧
    DecErr.invalidIVSize ≠ DecErr.malformedBlob :=
  ⟨rfl, by decide, rfl, by decide⟩

/-- C2 (amended): for every input whose base64url decoding succeeds but
yields fewer than 32 bytes, `decrypt_blob` fails — with the argon2
salt-too-short error when the decoded length is below 8, and with the
cipher's invalid-IV-size error otherwise — rather than with a
distinguished `MalformedBlob` error (which the code never produces);
`main` catches the exception and aborts. -/
theorem c2_short_blob_error (E : BlockCipher) (A : Argon2Core)
    (blob pwd data : List Nat) (hdec : b64decode blob = some data)
    (hlen : data.length < 32) :
    decrypt_blob E A blob pwd =
      .error (if data.length < 8 then DecErr.saltTooShort else DecErr.invalidIVSize) := by
  by_cases h8 : data.length < 8
  · rw [decrypt_blob_key_err E A blob pwd data _ hdec
      (derive_key_short A pwd _ (by simp only [List.length_take]; omega)), if_pos h8]
  · have hkey := A.length_run pwd (data.take 16) 3 65536 1 32 1
    rw [decrypt_blob_key_ok E A blob pwd data _ hdec
      (derive_key_ok A pwd _ (by simp only [List.length_take]; omega))]
    have hiv : ¬ ((data.drop 16).take 16).length = 16 := by
      simp only [List.length_take, List.length_drop]
      omega
    rw [if_pos (Or.inr (Or.inr hkey)), if_neg hiv, if_neg h8]

/-- C2 (amended) witness: the two error shapes at concrete short blobs. -/
theorem c2_short_blob_error_witness :
    decrypt_blob xorCipher zeroCore (b64encode (List.replicate 4 0)) [] =
      .error (if (List.replicate (4 : Nat) 0).length < 8 then DecErr.saltTooShort
        else DecErr.invalidIVSize) :=
  c2_short_blob_error xorCipher zeroCore _ [] (List.replicate 4 0)
    (b64decode_encode _ (validBytes_replicate 4 0 (by omega))) (by decide)

/-- C3 counterexample: with the directory listing enumerating
`b.json` before `a.json`, the pipeline picks `b.json` — the first
candidate in enumeration order — while the first in sorted order is
`a.json`. -/
theorem c3_counterexample_not_sorted :
    selectPayload ["b.json", "a.json"] = some "b.json" ∧
    sortedSelect ["b.json", "a.json"] = some "a.json" ∧
    (some "b.json" : Option String) ≠ some "a.json" := by
  refine ⟨rfl, ?_, by decide⟩
  rfl

/-- C3 (amended): when the extracted directory contains several candidate
`.json` files, the pipeline deterministically selects the first candidate
in the order the directory glob enumerates them (which need not be sorted
order), rather than failing. -/
theorem c3_first_candidate_selected (listing : List String) (name : String)
    (rest : List String) (hfilter : listing.filter isJsonName = name :: rest)
    (hmult : rest ≠ []) :
    selectPayload listing = some name := by
  unfold selectPayload
  rw [hfilter]
  rfl

/-- C3 (amended) witness: two candidates, the first in listing order is
picked. -/
theorem c3_first_candidate_selected_witness :
    selectPayload ["b.json", "a.json"] = some "b.json" :=
  c3_first_candidate_selected ["b.json", "a.json"] "b.json" ["a.json"]
    (by rfl) (by decide)

/-- C9: the compression-method description maps codes 0, 8, 12, 14, 93
and 99 to the stored/deflate/bzip2/LZMA/zstandard/AES-encrypted names, and
every unrecognized code yields the string `unknown (code)` containing that
code rather than failing. -/
theorem c9_compress_name_mapping :
    (compress_name 0 = "stored (no compression)" ∧
     compress_name 8 = "deflate" ∧
     compress_name 12 = "bzip2" ∧
     compress_name 14 = "lzma" ∧
     compress_name 93 = "zstandard" ∧
     compress_name 99 = "AES encrypted") ∧
    ∀ t : Nat, t ∉ ([0, 8, 12, 14, 93, 99] : List Nat) →
      compress_name t = "unknown (" ++ toString t ++ ")" := by
  refine ⟨⟨rfl, rfl, rfl, rfl, rfl, rfl⟩, ?_⟩
  intro t ht
  simp only [List.mem_cons, List.not_mem_nil, or_false, not_or] at ht
  obtain ⟨n0, n8, n12, n14, n93, n99⟩ := ht
  unfold compress_name
  rw [if_neg n0, if_neg n8, if_neg n12, if_neg n14, if_neg n93, if_neg n99]

/-- C9 witness: an unrecognized code reported with the code embedded. -/
theorem c9_compress_name_mapping_witness :
    (47 : Nat) ∉ ([0, 8, 12, 14, 93, 99] : List Nat) ∧
    compress_name 47 = "unknown (" ++ toString (47 : Nat) ++ ")" :=
  ⟨by decide, c9_compress_name_mapping.2 47 (by decide)⟩

/-- C4: in every run, the encrypted payload file is deleted only strictly
after the decrypted output file has been successfully written (the write
event precedes the delete event in the trace), and on any failing run —
in particular any failure during decryption, parsing or writing — the
payload file is not deleted. -/
theorem c4_delete_only_after_write (E : BlockCipher) (A : Argon2Core) (env : Env) :
    (Ev.deletePayload ∈ (main E A env).1 →
      Ev.wroteOutput ∈ (main E A env).1 ∧
      (main E A env).1.indexOf Ev.wroteOutput <
        (main E A env).1.indexOf Ev.deletePayload) ∧
    ((main E A env).2 = false → Ev.deletePayload ∉ (main E A env).1) := by
  unfold main
  repeat' split
  all_goals decide

/-- C4 witness: a successful run, with the write strictly before the
delete in the trace. -/
theorem c4_delete_only_after_write_witness :
    Ev.wroteOutput ∈ (main xorCipher zeroCore env0).1 ∧
    (main xorCipher zeroCore env0).1.indexOf Ev.wroteOutput <
      (main xorCipher zeroCore env0).1.indexOf Ev.deletePayload :=
  (c4_delete_only_after_write xorCipher zeroCore env0).1 (by decide)

/-- C7: when an attachments archive is present and the operator supplies
an empty attachments password, the run performs no attachments extraction,
never deletes the attachments archive file, and still exits with overall
success. -/
theorem c7_empty_attach_password_skips (E : BlockCipher) (A : Argon2Core) (env : Env)
    (h1 : env.zipExists = true) (h2 : env.outerExtract = .ok ())
    (jf : String) (h3 : selectPayload env.dirListing = some jf)
    (pt : List Nat) (h4 : decrypt_blob E A (env.readFile jf) env.encPwd = .ok pt)
    (h5 : env.parses pt = true) (h6 : env.writeOk = true)
    (az : String) (h7 : selectAttach env.dirListing = some az)
    (h8 : env.attachPwd = []) :
    (main E A env).2 = true ∧
    Ev.extractAttach ∉ (main E A env).1 ∧
    Ev.deleteAttach ∉ (main E A env).1 := by
  unfold main
  simp only [h1, h2, h3, h4, h5, h6, h7, h8]
  simp

/-- C7 witness: the skip scenario at a concrete environment. -/
theorem c7_empty_attach_password_skips_witness :
    (main xorCipher zeroCore env0).2 = true ∧
    Ev.extractAttach ∉ (main xorCipher zeroCore env0).1 ∧
    Ev.deleteAttach ∉ (main xorCipher zeroCore env0).1 :=
  c7_empty_attach_password_skips xorCipher zeroCore env0 rfl rfl
    "bw-backup.json" rfl [] rfl rfl rfl "attachments_1.zip" rfl rfl

/-- The environment `env0` with a non-empty attachments password and a
wrong-password failure on attachments extraction. -/
def env1 : Env :=
  { env0 with attachPwd := [1], attachExtract := .error ZipErr.badPassword }

/-- The environment `env0` with a wrong-password failure on the outer
archive extraction. -/
def env2 : Env :=
  { env0 with outerExtract := .error ZipErr.badPassword }

/-- C8: a wrong-password failure while extracting the nested attachments
archive is non-fatal — it is reported, the attachments archive file is not
deleted, and the run still exits with overall success — whereas the same
failure on the outer archive aborts the run. -/
theorem c8_auth_failure_fatality :
    (∀ (E : BlockCipher) (A : Argon2Core) (env : Env),
      env.zipExists = true → env.outerExtract = .ok () →
      ∀ jf, selectPayload env.dirListing = some jf →
      ∀ pt, decrypt_blob E A (env.readFile jf) env.encPwd = .ok pt →
      env.parses pt = true → env.writeOk = true →
      ∀ az, selectAttach env.dirListing = some az →
      env.attachPwd ≠ [] → env.attachExtract = .error ZipErr.badPassword →
      (main E A env).2 = true ∧
      Ev.reportAttachFailure ∈ (main E A env).1 ∧
      Ev.deleteAttach ∉ (main E A env).1) ∧
    (∀ (E : BlockCipher) (A : Argon2Core) (env : Env),
      env.zipExists = true → env.outerExtract = .error ZipErr.badPassword →
      main E A env = ([], false)) := by
  constructor
  · intro E A env h1 h2 jf h3 pt h4 h5 h6 az h7 h8 h9
    have h8' : env.attachPwd.isEmpty = false := by
      cases hax : env.attachPwd with
      | nil => exact absurd hax h8
      | cons a l => rfl
    unfold main
    simp only [h1, h2, h3, h4, h5, h6, h7, h8', h9]
    decide
  · intro E A env h1 h2
    unfold main
    simp only [h1, h2]
    decide

/-- C8 witness: both failure placements at concrete environments. -/
theorem c8_auth_failure_fatality_witness :
    ((main xorCipher zeroCore env1).2 = true ∧
      Ev.reportAttachFailure ∈ (main xorCipher zeroCore env1).1 ∧
      Ev.deleteAttach ∉ (main xorCipher zeroCore env1).1) ∧
    main xorCipher zeroCore env2 = ([], false) :=
  ⟨c8_auth_failure_fatality.1 xorCipher zeroCore env1 rfl rfl
      "bw-backup.json" rfl [] rfl rfl rfl "attachments_1.zip" rfl
      (by decide) rfl,
   c8_auth_failure_fatality.2 xorCipher zeroCore env2 rfl rfl⟩

end Lazywarden
